import Mathlib

/-!
my-voting: the token jar (`public/jar.js`) and the vote endpoint (`server.js`).

A shallow embedding of the jar simulation and of the `POST /api/vote` handler.

Numbers.  JavaScript numbers are IEEE doubles; the embedding computes exactly, in a
linearly ordered field `K`.  `Math.hypot(dx, dy)` is `sqrt (dx * dx + dy * dy)` for a square
root function `sqrt` on `K` that the simulation takes as an argument.  Statements that do not
depend on the value of a distance hold for every `K` and every `sqrt`; statements about
distances are made over the real numbers with the real square root, so that the computed
distance is the distance of the centres.  The definitions run as they stand over the
rationals.  `Math.random()` is an explicit argument (one draw per call site).

Strings.  Labels and colours are opaque display data (`String`).  Names sent to
the server are sequences of UTF-16 code units, because `slice` counts code units.

Drawing (canvas calls) and persistence (file writes, socket broadcast) do not
feed back into the state and are left out.
-/

set_option autoImplicit false

namespace Jar

variable {K : Type} [LinearOrderedField K]

/-! ## Data model -/

/-- The container bounds `jar = { x, y, w, h, r }` (`r` is the corner radius). -/
structure Bounds (K : Type) where
  x : K
  y : K
  w : K
  h : K
  r : K
  deriving DecidableEq

/-- A token `{ x, y, vx, vy, r, label, color }`. -/
structure Token (K : Type) where
  x : K
  y : K
  vx : K
  vy : K
  r : K
  label : String
  color : String
  deriving DecidableEq

/-- The constant `gravity = 0.45`. -/
def gravity : K := 45 / 100

/-- The constant `bounce = 0.45`. -/
def bounce : K := 45 / 100

/-- The constant `friction = 0.99`. -/
def friction : K := 99 / 100

/-- The population cap tested in `spawnToken` (`tokens.length > 600`). -/
def cap : Nat := 600

/-- `Number(opts.radius) || 34`: the configured radius, or 34 when it is missing or zero.
`opts` is a free variable of `create(canvas)` in the source; the value of its `radius` member
is an argument here. -/
def tokenR (radius : Option K) : K :=
  match radius with
  | some q => if q = 0 then 34 else q
  | none => 34

/-- The JavaScript `s || d` on an optional string: `undefined` and `""` are falsy. -/
def orDefault (s : Option String) (d : String) : String :=
  match s with
  | some v => if v = "" then d else v
  | none => d

/-! ## resize -/

/-- The bounds assigned by `resize()` from `W = canvas.clientWidth`, `H = canvas.clientHeight`:
`const m = 30; jar = { x:m, y:m, w: W-2*m, h: H-2*m, r:22 }`. -/
def resize (W H : K) : Bounds K :=
  let m : K := 30
  { x := m, y := m, w := W - 2 * m, h := H - 2 * m, r := 22 }

/-! ## spawnToken and clearTokens -/

/-- The object literal pushed by `spawnToken(label, color)`; `u` and `v` are the two
`Math.random()` draws, in call order. -/
def newToken (R : K) (jar : Bounds K) (u v : K) (label color : Option String) : Token K :=
  let r := R
  let x := jar.x + 20 + u * (jar.w - 40)
  let y := jar.y + 12 + r
  let vx := (v * 2 - 1) * 2
  { x := x, y := y, vx := vx, vy := 0, r := r,
    label := orDefault label "票", color := orDefault color "#8ab4f8" }

/-- `spawnToken(label, color)`: push the new token, then `shift()` once when the length
exceeds 600. -/
def spawnToken (R : K) (jar : Bounds K) (tokens : List (Token K)) (u v : K)
    (label color : Option String) : List (Token K) :=
  let pushed := tokens ++ [newToken R jar u v label color]
  if pushed.length > cap then pushed.tail else pushed

/-- `clearTokens()`: `tokens.length = 0`. -/
def clearTokens (_tokens : List (Token K)) : List (Token K) := []

/-! ## step -/

/-- `Math.hypot(dx, dy)`: the square root of the sum of the squares. -/
def hypot (sqrt : K → K) (dx dy : K) : K := sqrt (dx * dx + dy * dy)

/-- Line 42: `t.vy += gravity; t.vx *= friction; t.x += t.vx; t.y += t.vy`. -/
def integrate (t : Token K) : Token K :=
  let vy := t.vy + gravity
  let vx := t.vx * friction
  { t with vx := vx, vy := vy, x := t.x + vx, y := t.y + vy }

/-- Line 43, the left wall. -/
def wallLeft (jar : Bounds K) (t : Token K) : Token K :=
  if t.x - t.r < jar.x + 6 then { t with x := jar.x + 6 + t.r, vx := t.vx * (-bounce) } else t

/-- Line 44, the right wall. -/
def wallRight (jar : Bounds K) (t : Token K) : Token K :=
  if t.x + t.r > jar.x + jar.w - 6 then
    { t with x := jar.x + jar.w - 6 - t.r, vx := t.vx * (-bounce) }
  else t

/-- Line 45, the bottom wall with the resting test `Math.abs(t.vy) < 0.8`. -/
def wallBottom (jar : Bounds K) (t : Token K) : Token K :=
  if t.y + t.r > jar.y + jar.h - 6 then
    let vy := t.vy * (-bounce)
    { t with y := jar.y + jar.h - 6 - t.r, vy := if |vy| < 8 / 10 then 0 else vy }
  else t

/-- Line 46, the top wall. -/
def wallTop (jar : Bounds K) (t : Token K) : Token K :=
  if t.y - t.r < jar.y + 6 then { t with y := jar.y + 6 + t.r, vy := t.vy * (-bounce) } else t

/-- Lines 42 to 46 for one token: integration, then left, right, bottom, top. -/
def wallPass (jar : Bounds K) (t : Token K) : Token K :=
  wallTop jar (wallBottom jar (wallRight jar (wallLeft jar (integrate t))))

/-- Lines 48 to 55: the body of the inner loop for the pair `(t, o)`. -/
def collide (sqrt : K → K) (t o : Token K) : Token K × Token K :=
  let dx := o.x - t.x
  let dy := o.y - t.y
  let dist := hypot sqrt dx dy
  let minD := t.r + o.r
  if dist > 0 ∧ dist < minD then
    let k := (minD - dist) / 2
    let nx := dx / dist
    let ny := dy / dist
    ({ t with x := t.x - nx * k, y := t.y - ny * k, vx := o.vx * (1 / 2), vy := o.vy * (1 / 2) },
     { o with x := o.x + nx * k, y := o.y + ny * k, vx := t.vx * (1 / 2), vy := t.vy * (1 / 2) })
  else (t, o)

/-- The inner loop `for (let j=i+1; j<tokens.length; j++)`: `t` meets the later tokens in
order, both sides being updated in place. -/
def collideAll (sqrt : K → K) (t : Token K) : List (Token K) → Token K × List (Token K)
  | [] => (t, [])
  | o :: os =>
    let p := collide sqrt t o
    let q := collideAll sqrt p.1 os
    (q.1, p.2 :: q.2)

/-- One iteration of the outer loop, for index `i`. -/
def stepAt (sqrt : K → K) (jar : Bounds K) (tokens : List (Token K)) (i : Nat) :
    List (Token K) :=
  match tokens.drop i with
  | [] => tokens
  | t :: rest =>
    let p := collideAll sqrt (wallPass jar t) rest
    tokens.take i ++ p.1 :: p.2

/-- The simulation part of `step()`: `for (let i=0; i<tokens.length; i++)`. -/
def step (sqrt : K → K) (jar : Bounds K) (tokens : List (Token K)) : List (Token K) :=
  (List.range tokens.length).foldl (stepAt sqrt jar) tokens

/-! ## One jar instance and the calls it receives -/

/-- The closure state of one `create(canvas)`: radius, bounds and population. -/
structure Instance (K : Type) where
  R : K
  jar : Bounds K
  tokens : List (Token K)

/-- The calls that reach an instance between creation and teardown. -/
inductive Call (K : Type) where
  | spawn (u v : K) (label color : Option String)
  | clear
  | tick
  | resized (W H : K)

/-- The state of a fresh instance: `tokens = []`, then the initial `resize()`. -/
def create (radius : Option K) (W H : K) : Instance K :=
  { R := tokenR radius, jar := resize W H, tokens := [] }

/-- The effect of one call on the instance. -/
def Instance.call (sqrt : K → K) (s : Instance K) : Call K → Instance K
  | .spawn u v label color => { s with tokens := spawnToken s.R s.jar s.tokens u v label color }
  | .clear => { s with tokens := clearTokens s.tokens }
  | .tick => { s with tokens := step sqrt s.jar s.tokens }
  | .resized W H => { s with jar := resize W H }

/-- A finite sequence of calls, applied in order. -/
def Instance.run (sqrt : K → K) (s : Instance K) (calls : List (Call K)) : Instance K :=
  calls.foldl (Instance.call sqrt) s

/-- The arguments of one `spawnToken` call together with its two random draws. -/
structure SpawnArgs (K : Type) where
  u : K
  v : K
  label : Option String
  color : Option String

/-- A sequence of spawns from a given population, bounds fixed. -/
def spawnAll (R : K) (jar : Bounds K) (tokens : List (Token K)) (args : List (SpawnArgs K)) :
    List (Token K) :=
  args.foldl (fun ts a => spawnToken R jar ts a.u a.v a.label a.color) tokens

/-- The four wall inequalities of a token against the bounds inset by 6. -/
def InBounds (jar : Bounds K) (t : Token K) : Prop :=
  jar.x + 6 ≤ t.x - t.r ∧ t.x + t.r ≤ jar.x + jar.w - 6 ∧
  jar.y + 6 ≤ t.y - t.r ∧ t.y + t.r ≤ jar.y + jar.h - 6

instance (jar : Bounds K) (t : Token K) : Decidable (InBounds jar t) := by
  unfold InBounds; infer_instance

/-- A centre at least 80 away from each of the four bounds: far enough for a token of
radius 34 to be pushed by up to 34 and still touch no wall. -/
def WellInside (jar : Bounds K) (x y : K) : Prop :=
  jar.x + 80 ≤ x ∧ x + 80 ≤ jar.x + jar.w ∧ jar.y + 80 ≤ y ∧ y + 80 ≤ jar.y + jar.h

/-- The inset region is at least one diameter wide and high. -/
def Fits (jar : Bounds K) (r : K) : Prop :=
  2 * r ≤ jar.w - 12 ∧ 2 * r ≤ jar.h - 12

/-- The token made by one spawn. -/
def SpawnArgs.token (R : K) (jar : Bounds K) (a : SpawnArgs K) : Token K :=
  newToken R jar a.u a.v a.label a.color

/-- A sample label: `a` repeated `i + 1` times. -/
def sampleLabel (i : Nat) : String := String.mk (List.replicate (i + 1) 'a')

/-- A sample run of 601 spawns, the `i`-th one labelled `sampleLabel i`. -/
def sampleArgs : List (SpawnArgs ℚ) :=
  (List.range 601).map (fun i => ⟨1 / 2, 1 / 2, some (sampleLabel i), none⟩)

end Jar

namespace Server

/-! ## The vote endpoint of `server.js` -/

/-- A JavaScript string as its sequence of UTF-16 code units. -/
abbrev JSString := List Nat

/-- The code units removed by `String.prototype.trim`: white space and line terminators. -/
def isWhiteSpace (c : Nat) : Bool :=
  c == 0x09 || c == 0x0A || c == 0x0B || c == 0x0C || c == 0x0D || c == 0x20 || c == 0xA0 ||
  c == 0x1680 || (0x2000 ≤ c && c ≤ 0x200A) || c == 0x2028 || c == 0x2029 || c == 0x202F ||
  c == 0x205F || c == 0x3000 || c == 0xFEFF

/-- `s.trim()`. -/
def trim (s : JSString) : JSString :=
  ((s.dropWhile isWhiteSpace).reverse.dropWhile isWhiteSpace).reverse

/-- Line 70: `String(name).trim().slice(0, 16)`. -/
def cleanName (name : JSString) : JSString := (trim name).take 16

/-- One entry of `config.options`. -/
structure Opt where
  id : String
  label : String

/-- The names of the members of `Object.prototype`.  `history`, `nameSets` and `stats` are
plain objects, so reading one of them at such a key yields the inherited member (a function,
or the prototype object for `__proto__`), which is truthy and has no `has` method. -/
def objectPrototypeKeys : List String :=
  ["constructor", "__defineGetter__", "__defineSetter__", "hasOwnProperty", "__lookupGetter__",
   "__lookupSetter__", "isPrototypeOf", "propertyIsEnumerable", "toString", "valueOf",
   "__proto__", "toLocaleString"]

/-- The own properties of a JavaScript object used as a map from option ids.  The handler
writes `history` and `nameSets` only at keys that read as undefined, and `stats` only after
`nameSets[optionId].has` has returned, so it never creates an own property named like a member
of `Object.prototype`.  The table is read only at the other keys: a state in which one of
these objects has an own property under such a name (which only a data file not written by
this server can bring about) is not represented. -/
abbrev Table (α : Type) := String → Option α

/-- The assignment `m[k] = v`. -/
def Table.put {α : Type} (m : Table α) (k : String) (v : α) : Table α :=
  fun k' => if k' = k then some v else m k'

/-- `set.add(n)` on a `Set` of names, kept as the list of its members in insertion order. -/
def setAdd (names : List JSString) (n : JSString) : List JSString :=
  if n ∈ names then names else names ++ [n]

/-- `new Set(arr)`. -/
def newSet (arr : List JSString) : List JSString := arr.foldl setAdd []

/-- The module state read and written by the handler: `config.options`, `stats`, `history`
and `nameSets`. -/
structure State where
  options : List Opt
  stats : Table Nat
  history : Table (List JSString)
  nameSets : Table (List JSString)

/-- The fields of `req.body` the handler reads; a field may be missing. -/
structure Request where
  name : Option JSString
  optionIds : Option (List String)

/-- The answer: status 400 with a message, `{ ok: true, added, skipped }`, or status 500 when
the handler throws. -/
inductive Response where
  | badRequest (msg : String)
  | ok (added skipped : List String)
  | serverError
  deriving DecidableEq

/-- The variables of the `validIds.forEach` loop: the module state, the `added` and `skipped`
arrays, and whether a `TypeError` has been thrown, which abandons the loop and the handler. -/
structure Loop where
  state : State
  added : List String
  skipped : List String
  thrown : Bool

/-- Lines 77 to 105: the body of `validIds.forEach`.  For an id that names a member of
`Object.prototype`, `history[optionId]` and `nameSets[optionId]` read the inherited member, so
lines 78 and 79 assign nothing and `nameSets[optionId].has(cleanName)` on line 82 throws. -/
def voteOne (cleanName : JSString) (acc : Loop) (optionId : String) : Loop :=
  if acc.thrown then acc
  else if optionId ∈ objectPrototypeKeys then { acc with thrown := true }
  else
    let s := acc.state
    let history1 := if (s.history optionId).isNone then s.history.put optionId [] else s.history
    let hist := (history1 optionId).getD []
    let nameSets1 :=
      if (s.nameSets optionId).isNone then s.nameSets.put optionId (newSet hist) else s.nameSets
    let names := (nameSets1 optionId).getD []
    if cleanName ∈ names then
      { acc with
          state := { s with history := history1, nameSets := nameSets1 },
          skipped := acc.skipped ++ [optionId] }
    else
      { acc with
          state := { s with
            history := history1.put optionId (hist ++ [cleanName]),
            nameSets := nameSets1.put optionId (setAdd names cleanName),
            stats := s.stats.put optionId ((s.stats optionId).getD 0 + 1) },
          added := acc.added ++ [optionId] }

/-- The handler of `POST /api/vote` (lines 64 to 108).  What the loop has written before a
throw stays written. -/
def vote (s : State) (req : Request) : Response × State :=
  match req.name, req.optionIds with
  | some name, some optionIds =>
    if name = [] ∨ optionIds = [] then (.badRequest "缺少姓名或選項", s)
    else
      let cleanName := cleanName name
      let validIds := optionIds.filter (fun id => (s.options.find? (fun o => o.id = id)).isSome)
      if validIds = [] then (.badRequest "選項不存在", s)
      else
        let r := validIds.foldl (voteOne cleanName) ⟨s, [], [], false⟩
        if r.thrown then (.serverError, r.state) else (.ok r.added r.skipped, r.state)
  | _, _ => (.badRequest "缺少姓名或選項", s)

/-- The names recorded for an option: `history[opt]`, or none when it is undefined. -/
def State.names (s : State) (opt : String) : List JSString := (s.history opt).getD []

/-- The tally of an option: `stats[opt] || 0`. -/
def State.count (s : State) (opt : String) : Nat := (s.stats opt).getD 0

/-- `nameSets[opt]`, when defined, holds exactly the names of `history[opt]`. -/
def State.Consistent (s : State) (opt : String) : Prop :=
  ∀ ns, s.nameSets opt = some ns → ∀ n, n ∈ ns ↔ n ∈ s.names opt

/-- A state with one option and nothing recorded yet. -/
def emptyState : State :=
  { options := [⟨"d1010", "10/10"⟩], stats := fun _ => none, history := fun _ => none,
    nameSets := fun _ => none }

/-- A state with two options, the first of them with the id `constructor`, and nothing
recorded yet. -/
def protoState : State :=
  { options := [⟨"constructor", "A"⟩, ⟨"d1010", "10/10"⟩], stats := fun _ => none,
    history := fun _ => none, nameSets := fun _ => none }

end Server
namespace Jar

variable {K : Type} [LinearOrderedField K]

/-! ## Basic lemmas -/

theorem collideAll_length (sqrt : K → K) (t : Token K) (os : List (Token K)) :
    (collideAll sqrt t os).2.length = os.length := by
  induction os generalizing t with
  | nil => rfl
  | cons o os ih => simp [collideAll, ih]

theorem stepAt_length (sqrt : K → K) (jar : Bounds K) (tokens : List (Token K)) (i : Nat) :
    (stepAt sqrt jar tokens i).length = tokens.length := by
  unfold stepAt
  split
  · rfl
  · next t rest h =>
    have hl := congrArg List.length h
    simp only [List.length_drop, List.length_cons] at hl
    simp only [List.length_append, List.length_take, List.length_cons, collideAll_length]
    omega

theorem foldl_stepAt_length (sqrt : K → K) (jar : Bounds K) (is : List Nat)
    (tokens : List (Token K)) :
    (is.foldl (stepAt sqrt jar) tokens).length = tokens.length := by
  induction is generalizing tokens with
  | nil => rfl
  | cons i is ih => simp [List.foldl, ih, stepAt_length]

theorem step_length (sqrt : K → K) (jar : Bounds K) (tokens : List (Token K)) :
    (step sqrt jar tokens).length = tokens.length :=
  foldl_stepAt_length sqrt jar _ tokens

theorem spawnToken_length_le (R : K) (jar : Bounds K) (tokens : List (Token K)) (u v : K)
    (label color : Option String) (h : tokens.length ≤ cap) :
    (spawnToken R jar tokens u v label color).length ≤ cap := by
  unfold spawnToken
  simp only [List.length_append, List.length_singleton]
  split
  · simp only [List.length_tail, List.length_append, List.length_singleton]
    omega
  · simp only [List.length_append, List.length_singleton]
    omega

theorem call_length_le (sqrt : K → K) (s : Instance K) (c : Call K)
    (h : s.tokens.length ≤ cap) : (s.call sqrt c).tokens.length ≤ cap := by
  cases c with
  | spawn u v label color => exact spawnToken_length_le _ _ _ _ _ _ _ h
  | clear => simp [Instance.call, clearTokens]
  | tick => simpa [Instance.call, step_length] using h
  | resized W H => simpa [Instance.call] using h

theorem run_length_le (sqrt : K → K) (calls : List (Call K)) (s : Instance K)
    (h : s.tokens.length ≤ cap) : (s.run sqrt calls).tokens.length ≤ cap := by
  induction calls generalizing s with
  | nil => simpa [Instance.run] using h
  | cons c cs ih => exact ih (s.call sqrt c) (call_length_le sqrt s c h)

/-! ## Population bound -/

/-- C1. A population of at most 600 tokens has at most 600 tokens after `spawnToken`, for
every label, colour and random draws; and from a fresh instance (empty population) the
population has at most 600 tokens after any finite sequence of spawn, clear, tick and
resize calls (every prefix of a sequence is a sequence, so this holds after every call).
This holds in every number field and whatever `Math.hypot` returns. -/
theorem population_bound :
    (∀ (R : K) (jar : Bounds K) (tokens : List (Token K)) (u v : K)
        (label color : Option String),
      tokens.length ≤ 600 → (spawnToken R jar tokens u v label color).length ≤ 600) ∧
    (∀ (sqrt : K → K) (radius : Option K) (W H : K) (calls : List (Call K)),
      ((create radius W H).run sqrt calls).tokens.length ≤ 600) :=
  ⟨fun R jar tokens u v label color h => spawnToken_length_le R jar tokens u v label color h,
   fun sqrt radius W H calls => run_length_le sqrt calls _ (by simp [create, cap])⟩

theorem population_bound_witness :
    (List.replicate 600 (⟨100, 100, 0, 0, 34, "A", "#fff"⟩ : Token ℚ)).length ≤ 600 ∧
    (spawnToken 34 (resize 800 600)
      (List.replicate 600 (⟨100, 100, 0, 0, 34, "A", "#fff"⟩ : Token ℚ))
      (1 / 2) (1 / 4) (some "B") none).length ≤ 600 :=
  ⟨by rw [List.length_replicate], population_bound.1 34 (resize 800 600)
    (List.replicate 600 (⟨100, 100, 0, 0, 34, "A", "#fff"⟩ : Token ℚ))
    (1 / 2) (1 / 4) (some "B") none (by rw [List.length_replicate])⟩

/-! ## FIFO eviction -/

theorem spawnToken_of_lt (R : K) (jar : Bounds K) (tokens : List (Token K)) (u v : K)
    (label color : Option String) (h : tokens.length < cap) :
    spawnToken R jar tokens u v label color = tokens ++ [newToken R jar u v label color] := by
  unfold spawnToken
  simp only [List.length_append, List.length_singleton]
  rw [if_neg (by omega)]

theorem spawnToken_of_eq (R : K) (jar : Bounds K) (tokens : List (Token K)) (u v : K)
    (label color : Option String) (h : tokens.length = cap) :
    spawnToken R jar tokens u v label color
      = tokens.tail ++ [newToken R jar u v label color] := by
  unfold spawnToken
  simp only [List.length_append, List.length_singleton]
  rw [if_pos (by omega)]
  cases tokens with
  | nil => simp [cap] at h
  | cons t ts => rfl

theorem spawnAll_snoc (R : K) (jar : Bounds K) (tokens : List (Token K))
    (args : List (SpawnArgs K)) (a : SpawnArgs K) :
    spawnAll R jar tokens (args ++ [a])
      = spawnToken R jar (spawnAll R jar tokens args) a.u a.v a.label a.color := by
  simp [spawnAll, List.foldl_append]

theorem spawnAll_nil_eq (R : K) (jar : Bounds K) (args : List (SpawnArgs K)) :
    spawnAll R jar [] args = (args.map (SpawnArgs.token R jar)).drop (args.length - cap) := by
  induction args using List.reverseRecOn with
  | nil => simp [spawnAll]
  | append_singleton as a ih =>
    rw [spawnAll_snoc, ih]
    by_cases hlt : as.length < cap
    · have h0 : as.length - cap = 0 := by omega
      have h1 : (as ++ [a]).length - cap = 0 := by
        simp only [List.length_append, List.length_singleton]; omega
      rw [h0, h1, List.drop_zero, List.drop_zero, spawnToken_of_lt _ _ _ _ _ _ _ (by simpa using hlt)]
      simp [SpawnArgs.token]
    · have hge : cap ≤ as.length := by omega
      have hlen : ((as.map (SpawnArgs.token R jar)).drop (as.length - cap)).length = cap := by
        simp only [List.length_drop, List.length_map]; omega
      rw [spawnToken_of_eq _ _ _ _ _ _ _ hlen]
      have h1 : (as ++ [a]).length - cap = (as.length - cap) + 1 := by
        simp only [List.length_append, List.length_singleton]; omega
      have h2 : as.length - cap + 1 ≤ (as.map (SpawnArgs.token R jar)).length := by
        have hcap : cap = 600 := rfl
        simp only [List.length_map]; omega
      rw [h1, List.map_append, List.map_singleton, List.tail_drop,
        List.drop_append_of_le_length h2]
      rfl

/-- C2. For a population of fewer than 600 tokens `spawnToken` appends the new token; for a
population of exactly 600 it removes the first (oldest) token, one only, and appends the new
one.  Hence after `n > 600` spawns from the empty population the population is the last
600 spawned tokens in spawn order, its labels are the last 600 spawned labels in spawn
order, and when the spawned labels (the labels the tokens carry) are distinct none of the
oldest `n - 600` labels is in the population. -/
theorem fifo_eviction :
    (∀ (R : K) (jar : Bounds K) (P : List (Token K)) (u v : K) (label color : Option String),
      P.length < 600 →
        spawnToken R jar P u v label color = P ++ [newToken R jar u v label color]) ∧
    (∀ (R : K) (jar : Bounds K) (P : List (Token K)) (u v : K) (label color : Option String),
      P.length = 600 →
        spawnToken R jar P u v label color = P.tail ++ [newToken R jar u v label color]) ∧
    (∀ (R : K) (jar : Bounds K) (args : List (SpawnArgs K)), 600 < args.length →
      spawnAll R jar [] args
        = (args.map (SpawnArgs.token R jar)).drop (args.length - 600) ∧
      (spawnAll R jar [] args).length = 600 ∧
      (spawnAll R jar [] args).map Token.label
        = ((args.map (SpawnArgs.token R jar)).map Token.label).drop (args.length - 600) ∧
      (((args.map (SpawnArgs.token R jar)).map Token.label).Nodup →
        ∀ l ∈ ((args.map (SpawnArgs.token R jar)).map Token.label).take (args.length - 600),
          l ∉ (spawnAll R jar [] args).map Token.label) ∧
      ((∀ a ∈ args, ∃ s, a.label = some s ∧ s ≠ "") →
        (args.map (SpawnArgs.token R jar)).map Token.label
          = args.map (fun a => a.label.getD ""))) := by
  refine ⟨fun R jar P u v label color h => spawnToken_of_lt R jar P u v label color h,
    fun R jar P u v label color h => spawnToken_of_eq R jar P u v label color h, ?_⟩
  intro R jar args hn
  have heq := spawnAll_nil_eq R jar args
  have hcap : cap = 600 := rfl
  rw [hcap] at heq
  refine ⟨heq, ?_, ?_, ?_, ?_⟩
  · rw [heq]; simp only [List.length_drop, List.length_map]; omega
  · rw [heq, List.map_drop]
  · intro hnd l hl hmem
    rw [heq, List.map_drop] at hmem
    have hsplit := List.take_append_drop (args.length - 600)
      ((args.map (SpawnArgs.token R jar)).map Token.label)
    rw [← hsplit] at hnd
    exact (List.nodup_append.mp hnd).2.2 hl hmem
  · intro hall
    rw [List.map_map]
    apply List.map_congr_left
    intro a ha
    obtain ⟨s, hs, hne⟩ := hall a ha
    simp [SpawnArgs.token, newToken, orDefault, hs, hne]

theorem sampleLabel_injective : Function.Injective sampleLabel := by
  intro i j h
  have h1 := congrArg String.length h
  simpa [sampleLabel, String.length] using h1

theorem sampleLabel_ne (i : Nat) : sampleLabel i ≠ "" := by
  intro h
  have h1 := congrArg String.length h
  simp [sampleLabel, String.length] at h1

theorem sampleArgs_labels (R : ℚ) (jar : Bounds ℚ) :
    (sampleArgs.map (SpawnArgs.token R jar)).map Token.label
      = (List.range 601).map sampleLabel := by
  simp only [sampleArgs, List.map_map]
  apply List.map_congr_left
  intro i _
  simp [SpawnArgs.token, newToken, orDefault, sampleLabel_ne]

theorem fifo_eviction_witness :
    ([] : List (Token ℚ)).length < 600 ∧
    spawnToken (34 : ℚ) (resize 800 600) [] (1 / 2) (1 / 4) (some "A") none
      = [] ++ [newToken (34 : ℚ) (resize 800 600) (1 / 2) (1 / 4) (some "A") none] ∧
    600 < sampleArgs.length ∧
    ((sampleArgs.map (SpawnArgs.token (34 : ℚ) (resize 800 600))).map Token.label).Nodup ∧
    (spawnAll (34 : ℚ) (resize 800 600) [] sampleArgs).length = 600 ∧
    sampleLabel 0 ∉ (spawnAll (34 : ℚ) (resize 800 600) [] sampleArgs).map Token.label := by
  have hlen : 600 < sampleArgs.length := by simp [sampleArgs]
  have hnd : ((sampleArgs.map (SpawnArgs.token (34 : ℚ) (resize 800 600))).map Token.label).Nodup := by
    rw [sampleArgs_labels]
    exact List.Nodup.map sampleLabel_injective (List.nodup_range 601)
  have h3 := fifo_eviction.2.2 (34 : ℚ) (resize 800 600) sampleArgs hlen
  refine ⟨by decide, fifo_eviction.1 (34 : ℚ) (resize 800 600) [] (1 / 2) (1 / 4) (some "A") none
    (by decide), hlen, hnd, h3.2.1, ?_⟩
  apply h3.2.2.2.1 hnd
  rw [sampleArgs_labels]
  have h601 : sampleArgs.length - 600 = 1 := by simp [sampleArgs]
  rw [h601, List.range_succ_eq_map]
  simp

/-! ## resize -/

/-- C5 (as amended). `resize` sets width `W - 60` and height `H - 60`; the width is
non-negative exactly when `W ≥ 60` and the height exactly when `H ≥ 60`. -/
theorem resize_bounds (W H : K) :
    (resize W H).w = W - 60 ∧ (resize W H).h = H - 60 ∧
    (0 ≤ (resize W H).w ↔ 60 ≤ W) ∧ (0 ≤ (resize W H).h ↔ 60 ≤ H) := by
  simp only [resize]
  refine ⟨by ring, by ring, ?_, ?_⟩ <;> constructor <;> intro h <;> linarith

/-- C5 fails as stated: a surface of size 0 by 0 gets width and height -60. -/
theorem resize_negative : (resize (0 : ℚ) 0).w = -60 ∧ (resize (0 : ℚ) 0).h = -60 ∧ (resize (0 : ℚ) 0).w < 0 := by
  simp only [resize]
  norm_num

/-! ## clearTokens -/

/-- C9. `clearTokens` empties every population; any number of further `clearTokens` calls
leaves it empty (clear after clear equals clear); a tick on the empty population returns
the empty population, no token being updated. -/
theorem clear_idempotent :
    (∀ tokens : List (Token K), clearTokens tokens = []) ∧
    (∀ (tokens : List (Token K)) (n : Nat), Nat.iterate clearTokens n (clearTokens tokens) = []) ∧
    (∀ tokens : List (Token K), clearTokens (clearTokens tokens) = clearTokens tokens) ∧
    (∀ (sqrt : K → K) (jar : Bounds K), step sqrt jar [] = []) ∧
    (∀ (sqrt : K → K) (jar : Bounds K) (tokens : List (Token K)),
      step sqrt jar (clearTokens tokens) = []) := by
  refine ⟨fun _ => rfl, ?_, fun _ => rfl, fun _ _ => rfl, fun _ _ _ => rfl⟩
  intro tokens n
  induction n with
  | zero => rfl
  | succ n ih => rw [Function.iterate_succ_apply']; rfl

/-! ## Spawn initial state -/

theorem spawnToken_getLast (R : K) (jar : Bounds K) (tokens : List (Token K)) (u v : K)
    (label color : Option String) :
    (spawnToken R jar tokens u v label color).getLast? = some (newToken R jar u v label color) := by
  unfold spawnToken
  simp only [List.length_append, List.length_singleton]
  split
  · next h =>
    cases tokens with
    | nil => simp [cap] at h
    | cons t ts => simp
  · simp

/-- C7 (as amended). With bounds at least 40 wide and draws `u`, `v` in `[0,1)`, the last
token of the population after `spawnToken(label, color)` is the new one, and it has `x` in
`[jar.x+20, jar.x+jar.w-20]`, `y = jar.y+12+R`, `vx` in `[-2, 2]`, `vy = 0`, radius `R`;
its label is the given label when that is a non-empty string and the placeholder "票" when
the label is absent or empty; its colour is the given colour when that is a non-empty
string and "#8ab4f8" when the colour is absent or empty. -/
theorem spawn_initial_state (R : K) (jar : Bounds K) (tokens : List (Token K)) (u v : K)
    (label color : Option String) (hw : 40 ≤ jar.w) (hu : 0 ≤ u ∧ u < 1)
    (hv : 0 ≤ v ∧ v < 1) :
    ∃ t, (spawnToken R jar tokens u v label color).getLast? = some t ∧
      jar.x + 20 ≤ t.x ∧ t.x ≤ jar.x + jar.w - 20 ∧ t.y = jar.y + 12 + R ∧
      -2 ≤ t.vx ∧ t.vx ≤ 2 ∧ t.vy = 0 ∧ t.r = R ∧
      (∀ s, label = some s → s ≠ "" → t.label = s) ∧
      (label = none ∨ label = some "" → t.label = "票") ∧
      (∀ c, color = some c → c ≠ "" → t.color = c) ∧
      (color = none ∨ color = some "" → t.color = "#8ab4f8") := by
  refine ⟨newToken R jar u v label color, spawnToken_getLast R jar tokens u v label color, ?_⟩
  obtain ⟨hu0, hu1⟩ := hu
  obtain ⟨hv0, hv1⟩ := hv
  simp only [newToken]
  refine ⟨?_, ?_, trivial, ?_, ?_, trivial, trivial, ?_, ?_, ?_, ?_⟩
  · nlinarith
  · nlinarith
  · linarith
  · linarith
  · intro s hs hne; subst hs; simp [orDefault, hne]
  · rintro (h | h) <;> subst h <;> simp [orDefault]
  · intro c hc hne; subst hc; simp [orDefault, hne]
  · rintro (h | h) <;> subst h <;> simp [orDefault]

theorem spawn_initial_state_witness :
    (40 : ℚ) ≤ (resize (800 : ℚ) 600).w ∧
    ∃ t, (spawnToken 34 (resize (800 : ℚ) 600) [] (1 / 2) (1 / 4) (some "A") none).getLast? = some t ∧
      (resize (800 : ℚ) 600).x + 20 ≤ t.x ∧ t.x ≤ (resize (800 : ℚ) 600).x + (resize (800 : ℚ) 600).w - 20 ∧
      t.y = (resize (800 : ℚ) 600).y + 12 + 34 ∧
      -2 ≤ t.vx ∧ t.vx ≤ 2 ∧ t.vy = 0 ∧ t.r = 34 ∧
      (∀ s, some "A" = some s → s ≠ "" → t.label = s) ∧
      ((some "A" : Option String) = none ∨ some "A" = some "" → t.label = "票") ∧
      (∀ c, (none : Option String) = some c → c ≠ "" → t.color = c) ∧
      ((none : Option String) = none ∨ none = some "" → t.color = "#8ab4f8") :=
  ⟨by norm_num [resize],
   spawn_initial_state 34 (resize (800 : ℚ) 600) [] (1 / 2) (1 / 4) (some "A") none
     (by norm_num [resize]) (by norm_num) (by norm_num)⟩

/-- C7 fails as stated: a label that is given but empty is replaced by the placeholder, and
likewise an empty colour by the fallback. -/
theorem spawn_empty_label :
    (spawnToken 34 (resize (800 : ℚ) 600) [] (1 / 2) (1 / 4) (some "") (some "")).getLast?.map
        (fun t => (t.label, t.color)) = some ("票", "#8ab4f8") ∧
    ("票" : String) ≠ "" ∧ ("#8ab4f8" : String) ≠ "" := by
  refine ⟨?_, by decide, by decide⟩
  rw [spawnToken_getLast]
  simp [newToken, orDefault]

/-! ## Resting condition -/

/-- C8. When the integrated token's bottom edge is past the bottom wall
(`y + r > jar.y + jar.h - 6`), the bottom-wall branch sets `y = jar.y + jar.h - 6 - r` and
replaces `vy` by `-0.45` times its integrated value, or by exactly 0 when that product has
magnitude below `0.8`; so after the branch `vy = 0` or `|vy| ≥ 0.8`. -/
theorem resting_condition (jar : Bounds K) (t : Token K)
    (h : (integrate t).y + (integrate t).r > jar.y + jar.h - 6) :
    (wallBottom jar (wallRight jar (wallLeft jar (integrate t)))).y = jar.y + jar.h - 6 - t.r ∧
    (|(integrate t).vy * (-(45 / 100))| < 8 / 10 →
      (wallBottom jar (wallRight jar (wallLeft jar (integrate t)))).vy = 0) ∧
    (¬ |(integrate t).vy * (-(45 / 100))| < 8 / 10 →
      (wallBottom jar (wallRight jar (wallLeft jar (integrate t)))).vy
        = (integrate t).vy * (-(45 / 100))) ∧
    ((wallBottom jar (wallRight jar (wallLeft jar (integrate t)))).vy = 0 ∨
      8 / 10 ≤ |(wallBottom jar (wallRight jar (wallLeft jar (integrate t)))).vy|) := by
  have hy : (wallRight jar (wallLeft jar (integrate t))).y = (integrate t).y := by
    unfold wallRight wallLeft; split <;> split <;> rfl
  have hr : (wallRight jar (wallLeft jar (integrate t))).r = t.r := by
    unfold wallRight wallLeft; split <;> split <;> rfl
  have hvy : (wallRight jar (wallLeft jar (integrate t))).vy = (integrate t).vy := by
    unfold wallRight wallLeft; split <;> split <;> rfl
  have hr0 : (integrate t).r = t.r := rfl
  generalize wallRight jar (wallLeft jar (integrate t)) = s at hy hr hvy
  have hcross : s.y + s.r > jar.y + jar.h - 6 := by rw [hy, hr, ← hr0]; exact h
  unfold wallBottom
  rw [if_pos hcross]
  simp only [bounce, hvy, hr]
  refine ⟨trivial, ?_, ?_, ?_⟩
  · intro hlt; rw [if_pos hlt]
  · intro hge; rw [if_neg hge]
  · by_cases hlt : |(integrate t).vy * (-(45 / 100))| < 8 / 10
    · left; rw [if_pos hlt]
    · right; rw [if_neg hlt]; exact not_lt.mp hlt

theorem resting_condition_witness :
    (integrate (⟨500, 990, 0, 1, 34, "A", "#fff"⟩ : Token ℚ)).y + (integrate (⟨500, 990, 0, 1, 34, "A", "#fff"⟩ : Token ℚ)).r
      > (resize 1060 1060).y + (resize 1060 1060).h - 6 ∧
    (wallBottom (resize 1060 1060) (wallRight (resize 1060 1060)
      (wallLeft (resize 1060 1060) (integrate (⟨500, 990, 0, 1, 34, "A", "#fff"⟩ : Token ℚ))))).vy = 0 :=
  ⟨by norm_num [integrate, resize, gravity],
   (resting_condition (resize 1060 1060) ⟨500, 990, 0, 1, 34, "A", "#fff"⟩
      (by norm_num [integrate, resize, gravity])).2.1
      (by norm_num [integrate, gravity, abs_lt])⟩

/-! ## Walls -/

theorem walls_untouched (jar : Bounds K) (s : Token K) (h : InBounds jar s) :
    wallTop jar (wallBottom jar (wallRight jar (wallLeft jar s))) = s := by
  obtain ⟨h1, h2, h3, h4⟩ := h
  unfold wallTop wallBottom wallRight wallLeft
  rw [if_neg (not_lt.mpr h1), if_neg (not_lt.mpr h2), if_neg (not_lt.mpr h4),
    if_neg (not_lt.mpr h3)]


theorem step_single (sqrt : K → K) (jar : Bounds K) (t : Token K) :
    step sqrt jar [t] = [wallPass jar t] := by
  simp [step, List.range_succ, stepAt, collideAll]

theorem step_pair (sqrt : K → K) (jar : Bounds K) (t o : Token K) :
    step sqrt jar [t, o]
      = [(collide sqrt (wallPass jar t) o).1, wallPass jar (collide sqrt (wallPass jar t) o).2] := by
  simp [step, List.range_succ, stepAt, collideAll]

theorem integrate_r (t : Token K) : (integrate t).r = t.r := rfl

theorem wallPass_r (jar : Bounds K) (t : Token K) : (wallPass jar t).r = t.r := by
  unfold wallPass wallTop wallBottom wallRight wallLeft
  split <;> split <;> split <;> split <;> rfl

theorem walls_inBounds (jar : Bounds K) (s : Token K) (hfit : Fits jar s.r) :
    InBounds jar (wallTop jar (wallBottom jar (wallRight jar (wallLeft jar s)))) := by
  obtain ⟨hw, hh⟩ := hfit
  unfold InBounds wallTop wallBottom wallRight wallLeft
  split_ifs <;> refine ⟨?_, ?_, ?_, ?_⟩ <;> (try simp only []) <;> linarith

theorem wallPass_inBounds (jar : Bounds K) (t : Token K) (hfit : Fits jar t.r) :
    InBounds jar (wallPass jar t) :=
  walls_inBounds jar (integrate t) hfit

theorem collide_r (sqrt : K → K) (t o : Token K) :
    (collide sqrt t o).1.r = t.r ∧ (collide sqrt t o).2.r = o.r := by
  unfold collide
  simp only []
  split <;> exact ⟨rfl, rfl⟩

theorem collideAll_r (sqrt : K → K) (t : Token K) (os : List (Token K)) :
    (collideAll sqrt t os).1.r = t.r ∧ (collideAll sqrt t os).2.map Token.r = os.map Token.r := by
  induction os generalizing t with
  | nil => exact ⟨rfl, rfl⟩
  | cons o os ih =>
    obtain ⟨h1, h2⟩ := ih (collide sqrt t o).1
    simp only [collideAll, List.map_cons, h1, h2, (collide_r sqrt t o).1, (collide_r sqrt t o).2,
      and_self]

theorem stepAt_map_r (sqrt : K → K) (jar : Bounds K) (tokens : List (Token K)) (i : Nat) :
    (stepAt sqrt jar tokens i).map Token.r = tokens.map Token.r := by
  unfold stepAt
  split
  · rfl
  · next t rest h =>
    have hsplit := List.take_append_drop i tokens
    rw [h] at hsplit
    conv_rhs => rw [← hsplit]
    simp only [List.map_append, List.map_cons, (collideAll_r sqrt _ rest).1, (collideAll_r sqrt _ rest).2,
      wallPass_r]

theorem foldl_stepAt_map_r (sqrt : K → K) (jar : Bounds K) (is : List Nat)
    (tokens : List (Token K)) :
    (is.foldl (stepAt sqrt jar) tokens).map Token.r = tokens.map Token.r := by
  induction is generalizing tokens with
  | nil => rfl
  | cons i is ih => simp [List.foldl, ih, stepAt_map_r]

theorem step_map_r (sqrt : K → K) (jar : Bounds K) (tokens : List (Token K)) :
    (step sqrt jar tokens).map Token.r = tokens.map Token.r :=
  foldl_stepAt_map_r sqrt jar _ tokens

theorem step_getLast (sqrt : K → K) (jar : Bounds K) (tokens : List (Token K))
    (hne : tokens ≠ []) :
    ∃ s, s.r = (tokens.getLast hne).r ∧ (step sqrt jar tokens).getLast? = some (wallPass jar s) := by
  obtain ⟨m, hm⟩ : ∃ m, tokens.length = m + 1 := by
    cases tokens with
    | nil => exact absurd rfl hne
    | cons t ts => exact ⟨ts.length, rfl⟩
  unfold step
  rw [hm, List.range_succ, List.foldl_append]
  simp only [List.foldl_cons, List.foldl_nil]
  have hlen := foldl_stepAt_length sqrt jar (List.range m) tokens
  have hr := foldl_stepAt_map_r sqrt jar (List.range m) tokens
  generalize List.foldl (stepAt sqrt jar) tokens (List.range m) = ts at hlen hr
  have hdl : (ts.drop m).length = 1 := by rw [List.length_drop]; omega
  obtain ⟨s, hs⟩ := List.length_eq_one.mp hdl
  have hsplit := List.take_append_drop m ts
  rw [hs] at hsplit
  refine ⟨s, ?_, ?_⟩
  · have h1 : (ts.map Token.r).getLast? = some s.r := by
      rw [← hsplit]; simp
    have h2 : (tokens.map Token.r).getLast? = some (tokens.getLast hne).r := by
      rw [List.getLast?_map, List.getLast?_eq_getLast _ hne]; rfl
    rw [hr, h2] at h1
    exact (Option.some.inj h1).symm
  · unfold stepAt
    rw [hs]
    simp [collideAll]

/-- C3 (as amended). When the region inset by 6 is at least one token diameter wide and
high, a token satisfies the four wall inequalities right after its own integration and wall
pass; hence at the end of a tick they hold for the last token of the population, which no
pairwise correction moves afterwards (in particular for the only token of a one-token
population).  This holds in every number field and whatever `Math.hypot` returns. -/
theorem wall_non_penetration :
    (∀ (jar : Bounds K) (t : Token K), Fits jar t.r → InBounds jar (wallPass jar t)) ∧
    (∀ (sqrt : K → K) (jar : Bounds K) (tokens : List (Token K)) (hne : tokens ≠ []),
      Fits jar (tokens.getLast hne).r →
        ∃ t, (step sqrt jar tokens).getLast? = some t ∧ t.r = (tokens.getLast hne).r ∧
          InBounds jar t) ∧
    (∀ (sqrt : K → K) (jar : Bounds K) (t : Token K), Fits jar t.r →
      step sqrt jar [t] = [wallPass jar t] ∧ ∀ s ∈ step sqrt jar [t], InBounds jar s) := by
  refine ⟨fun jar t h => wallPass_inBounds jar t h, ?_, ?_⟩
  · intro sqrt jar tokens hne hfit
    obtain ⟨s, hsr, hs⟩ := step_getLast sqrt jar tokens hne
    refine ⟨wallPass jar s, hs, ?_, ?_⟩
    · rw [wallPass_r, hsr]
    · exact wallPass_inBounds jar s (by rw [hsr]; exact hfit)
  · intro sqrt jar t hfit
    refine ⟨step_single sqrt jar t, ?_⟩
    intro s hs
    rw [step_single, List.mem_singleton] at hs
    rw [hs]
    exact wallPass_inBounds jar t hfit

theorem wall_non_penetration_witness :
    Fits (resize (1060 : ℚ) 1060) (⟨500, 990, 0, 1, 34, "A", "#fff"⟩ : Token ℚ).r ∧
    InBounds (resize (1060 : ℚ) 1060)
      (wallPass (resize 1060 1060) ⟨500, 990, 0, 1, 34, "A", "#fff"⟩) ∧
    ∃ t, (step Real.sqrt (resize (1060 : ℝ) 1060)
          [⟨70, 990, 0, 0, 34, "A", "#fff"⟩, ⟨80, 990, 0, 0, 34, "B", "#fff"⟩]).getLast? = some t ∧
      t.r = 34 ∧ InBounds (resize (1060 : ℝ) 1060) t :=
  ⟨by norm_num [Fits, resize],
   wall_non_penetration.1 (resize 1060 1060) ⟨500, 990, 0, 1, 34, "A", "#fff"⟩
     (by norm_num [Fits, resize]),
   wall_non_penetration.2.1 Real.sqrt (resize (1060 : ℝ) 1060)
     [⟨70, 990, 0, 0, 34, "A", "#fff"⟩, ⟨80, 990, 0, 0, 34, "B", "#fff"⟩] (by simp)
     (by norm_num [Fits, resize])⟩

/-! ## Pairwise collision -/

theorem collide_of_overlap (sqrt : K → K) (t o : Token K) (hpos : 0 < hypot sqrt (o.x - t.x) (o.y - t.y))
    (hlt : hypot sqrt (o.x - t.x) (o.y - t.y) < t.r + o.r) :
    collide sqrt t o
      = ({ t with
            x := t.x - (o.x - t.x) / hypot sqrt (o.x - t.x) (o.y - t.y)
                  * ((t.r + o.r - hypot sqrt (o.x - t.x) (o.y - t.y)) / 2),
            y := t.y - (o.y - t.y) / hypot sqrt (o.x - t.x) (o.y - t.y)
                  * ((t.r + o.r - hypot sqrt (o.x - t.x) (o.y - t.y)) / 2),
            vx := o.vx * (1 / 2), vy := o.vy * (1 / 2) },
         { o with
            x := o.x + (o.x - t.x) / hypot sqrt (o.x - t.x) (o.y - t.y)
                  * ((t.r + o.r - hypot sqrt (o.x - t.x) (o.y - t.y)) / 2),
            y := o.y + (o.y - t.y) / hypot sqrt (o.x - t.x) (o.y - t.y)
                  * ((t.r + o.r - hypot sqrt (o.x - t.x) (o.y - t.y)) / 2),
            vx := t.vx * (1 / 2), vy := t.vy * (1 / 2) }) := by
  unfold collide
  simp only []
  rw [if_pos ⟨hpos, hlt⟩]

theorem hypot_nonneg (dx dy : ℝ) : 0 ≤ hypot Real.sqrt dx dy := Real.sqrt_nonneg _

theorem hypot_of_sq (a b c : ℝ) (hc : 0 ≤ c) (h : a * a + b * b = c * c) : hypot Real.sqrt a b = c := by
  unfold hypot
  rw [h, Real.sqrt_mul_self hc]

theorem hypot_mul_self (a b : ℝ) : hypot Real.sqrt a b * hypot Real.sqrt a b = a * a + b * b :=
  Real.mul_self_sqrt (add_nonneg (mul_self_nonneg a) (mul_self_nonneg b))

theorem hypot_eq_zero_iff (a b : ℝ) : hypot Real.sqrt a b = 0 ↔ a = 0 ∧ b = 0 := by
  unfold hypot
  rw [Real.sqrt_eq_zero (add_nonneg (mul_self_nonneg a) (mul_self_nonneg b))]
  constructor
  · intro h
    constructor
    · nlinarith [mul_self_nonneg a, mul_self_nonneg b]
    · nlinarith [mul_self_nonneg a, mul_self_nonneg b]
  · rintro ⟨rfl, rfl⟩
    norm_num

theorem le_hypot (c a b : ℝ) (hc : 0 ≤ c) (h : c * c ≤ a * a + b * b) : c ≤ hypot Real.sqrt a b := by
  unfold hypot
  rw [Real.le_sqrt hc (add_nonneg (mul_self_nonneg a) (mul_self_nonneg b)), sq]
  exact h

/-- C10. For a pair `(t, o)` met by the inner loop, with `d = Math.hypot(dx, dy)` the
distance of the centres: when `0 < d < t.r + o.r`, with `k = (t.r + o.r - d)/2` and the unit
vector `(dx/d, dy/d)` from `t` to `o`, `t` is moved by `k` against that vector and `o` by `k`
along it, each token is displaced by exactly `k`, the distance of the centres afterwards is
exactly `t.r + o.r`, and each velocity becomes half of the other token's velocity from before
the correction; when `d = 0` (which is the case exactly when the centres coincide) or
`d ≥ t.r + o.r`, both tokens are returned unchanged. -/
theorem pairwise_collision_rule (t o : Token ℝ) :
    (0 < hypot Real.sqrt (o.x - t.x) (o.y - t.y) → hypot Real.sqrt (o.x - t.x) (o.y - t.y) < t.r + o.r →
      ((o.x - t.x) / hypot Real.sqrt (o.x - t.x) (o.y - t.y)) ^ 2
          + ((o.y - t.y) / hypot Real.sqrt (o.x - t.x) (o.y - t.y)) ^ 2 = 1 ∧
      (collide Real.sqrt t o).1.x
          = t.x - (o.x - t.x) / hypot Real.sqrt (o.x - t.x) (o.y - t.y)
              * ((t.r + o.r - hypot Real.sqrt (o.x - t.x) (o.y - t.y)) / 2) ∧
      (collide Real.sqrt t o).1.y
          = t.y - (o.y - t.y) / hypot Real.sqrt (o.x - t.x) (o.y - t.y)
              * ((t.r + o.r - hypot Real.sqrt (o.x - t.x) (o.y - t.y)) / 2) ∧
      (collide Real.sqrt t o).2.x
          = o.x + (o.x - t.x) / hypot Real.sqrt (o.x - t.x) (o.y - t.y)
              * ((t.r + o.r - hypot Real.sqrt (o.x - t.x) (o.y - t.y)) / 2) ∧
      (collide Real.sqrt t o).2.y
          = o.y + (o.y - t.y) / hypot Real.sqrt (o.x - t.x) (o.y - t.y)
              * ((t.r + o.r - hypot Real.sqrt (o.x - t.x) (o.y - t.y)) / 2) ∧
      hypot Real.sqrt ((collide Real.sqrt t o).1.x - t.x) ((collide Real.sqrt t o).1.y - t.y)
          = (t.r + o.r - hypot Real.sqrt (o.x - t.x) (o.y - t.y)) / 2 ∧
      hypot Real.sqrt ((collide Real.sqrt t o).2.x - o.x) ((collide Real.sqrt t o).2.y - o.y)
          = (t.r + o.r - hypot Real.sqrt (o.x - t.x) (o.y - t.y)) / 2 ∧
      hypot Real.sqrt ((collide Real.sqrt t o).2.x - (collide Real.sqrt t o).1.x) ((collide Real.sqrt t o).2.y - (collide Real.sqrt t o).1.y)
          = t.r + o.r ∧
      (collide Real.sqrt t o).1.vx = o.vx / 2 ∧ (collide Real.sqrt t o).1.vy = o.vy / 2 ∧
      (collide Real.sqrt t o).2.vx = t.vx / 2 ∧ (collide Real.sqrt t o).2.vy = t.vy / 2 ∧
      (collide Real.sqrt t o).1.r = t.r ∧ (collide Real.sqrt t o).2.r = o.r ∧
      (collide Real.sqrt t o).1.label = t.label ∧ (collide Real.sqrt t o).2.label = o.label ∧
      (collide Real.sqrt t o).1.color = t.color ∧ (collide Real.sqrt t o).2.color = o.color) ∧
    (hypot Real.sqrt (o.x - t.x) (o.y - t.y) = 0 ∨ t.r + o.r ≤ hypot Real.sqrt (o.x - t.x) (o.y - t.y) →
      collide Real.sqrt t o = (t, o)) ∧
    (hypot Real.sqrt (o.x - t.x) (o.y - t.y) = 0 ↔ o.x = t.x ∧ o.y = t.y) := by
  refine ⟨?_, ?_, ?_⟩
  · intro hpos hlt
    rw [collide_of_overlap Real.sqrt t o hpos hlt]
    simp only []
    have hex := hypot_mul_self (o.x - t.x) (o.y - t.y)
    generalize hypot Real.sqrt (o.x - t.x) (o.y - t.y) = d at hpos hlt hex
    have hd : d ≠ 0 := ne_of_gt hpos
    have hn : ((o.x - t.x) / d) ^ 2 + ((o.y - t.y) / d) ^ 2 = 1 := by
      rw [div_pow, div_pow, ← add_div, div_eq_one_iff_eq (pow_ne_zero 2 hd), sq, sq, sq, hex]
    have hx : o.x - t.x = (o.x - t.x) / d * d := (div_mul_cancel₀ _ hd).symm
    have hy : o.y - t.y = (o.y - t.y) / d * d := (div_mul_cancel₀ _ hd).symm
    refine ⟨hn, trivial, trivial, trivial, trivial, ?_, ?_, ?_, by ring, by ring, by ring,
      by ring, trivial, trivial, trivial, trivial, trivial, trivial⟩
    · generalize (o.x - t.x) / d = nx at hn hx
      generalize (o.y - t.y) / d = ny at hn hy
      apply hypot_of_sq _ _ _ (by linarith)
      linear_combination ((t.r + o.r - d) / 2) ^ 2 * hn
    · generalize (o.x - t.x) / d = nx at hn hx
      generalize (o.y - t.y) / d = ny at hn hy
      apply hypot_of_sq _ _ _ (by linarith)
      linear_combination ((t.r + o.r - d) / 2) ^ 2 * hn
    · generalize (o.x - t.x) / d = nx at hn hx
      generalize (o.y - t.y) / d = ny at hn hy
      apply hypot_of_sq _ _ _ (by linarith)
      linear_combination (t.r + o.r) ^ 2 * hn
        + ((o.x - t.x) - nx * d + 2 * nx * (t.r + o.r)) * hx
        + ((o.y - t.y) - ny * d + 2 * ny * (t.r + o.r)) * hy
  · intro h
    unfold collide
    simp only []
    rw [if_neg]
    rintro ⟨hpos, hlt⟩
    rcases h with h | h
    · exact absurd h (ne_of_gt hpos)
    · exact absurd hlt (not_lt.mpr h)
  · rw [hypot_eq_zero_iff, sub_eq_zero, sub_eq_zero]

theorem pairwise_collision_rule_witness :
    0 < hypot Real.sqrt ((⟨1, 1, 2, 6, 34, "B", "#fff"⟩ : Token ℝ).x - (⟨0, 0, 1, 0, 34, "A", "#fff"⟩ : Token ℝ).x)
          ((⟨1, 1, 2, 6, 34, "B", "#fff"⟩ : Token ℝ).y - (⟨0, 0, 1, 0, 34, "A", "#fff"⟩ : Token ℝ).y) ∧
    hypot Real.sqrt ((collide Real.sqrt ⟨0, 0, 1, 0, 34, "A", "#fff"⟩ ⟨1, 1, 2, 6, 34, "B", "#fff"⟩).2.x
            - (collide Real.sqrt ⟨0, 0, 1, 0, 34, "A", "#fff"⟩ ⟨1, 1, 2, 6, 34, "B", "#fff"⟩).1.x)
          ((collide Real.sqrt ⟨0, 0, 1, 0, 34, "A", "#fff"⟩ ⟨1, 1, 2, 6, 34, "B", "#fff"⟩).2.y
            - (collide Real.sqrt ⟨0, 0, 1, 0, 34, "A", "#fff"⟩ ⟨1, 1, 2, 6, 34, "B", "#fff"⟩).1.y)
        = (34 : ℝ) + 34 ∧
    (collide Real.sqrt ⟨0, 0, 1, 0, 34, "A", "#fff"⟩ ⟨1, 1, 2, 6, 34, "B", "#fff"⟩).1.vx = 2 / 2 := by
  have hsq := hypot_mul_self ((1 : ℝ) - 0) (1 - 0)
  have h0 := hypot_nonneg ((1 : ℝ) - 0) (1 - 0)
  have hpos : 0 < hypot Real.sqrt ((1 : ℝ) - 0) (1 - 0) := by
    rcases eq_or_lt_of_le h0 with h | h
    · rw [← h] at hsq; norm_num at hsq
    · exact h
  have hlt : hypot Real.sqrt ((1 : ℝ) - 0) (1 - 0) < 34 + 34 := by nlinarith
  have h := (pairwise_collision_rule ⟨0, 0, 1, 0, 34, "A", "#fff"⟩ ⟨1, 1, 2, 6, 34, "B", "#fff"⟩).1
    hpos hlt
  exact ⟨hpos, h.2.2.2.2.2.2.2.1, h.2.2.2.2.2.2.2.2.1⟩

/-- C3 fails as stated.  First input: a container that fits the tokens with room to spare,
token A resting in the bottom-left corner and token B overlapping it from the right; the
pairwise correction pushes A through the left wall after A's wall pass, and A ends the tick
with `x - r = 7 < 36`.  Second input: a surface of 60 by 60, whose bounds have width and
height 0; the right-wall and top-wall clamps undo the left and bottom ones. -/
theorem wall_penetration :
    (Fits (resize (1060 : ℝ) 1060) 34 ∧
      InBounds (resize (1060 : ℝ) 1060) ⟨70, 990, 0, 0, 34, "A", "#fff"⟩ ∧
      InBounds (resize (1060 : ℝ) 1060) ⟨80, 990, 0, 0, 34, "B", "#fff"⟩ ∧
      step Real.sqrt (resize (1060 : ℝ) 1060)
          [⟨70, 990, 0, 0, 34, "A", "#fff"⟩, ⟨80, 990, 0, 0, 34, "B", "#fff"⟩]
        = [⟨41, 990, 0, 0, 34, "A", "#fff"⟩, ⟨109, 990, 0, 0, 34, "B", "#fff"⟩] ∧
      ¬ InBounds (resize (1060 : ℝ) 1060) ⟨41, 990, 0, 0, 34, "A", "#fff"⟩) ∧
    (step Real.sqrt (resize (60 : ℝ) 60) [⟨30, 30, 0, 0, 34, "A", "#fff"⟩]
        = [⟨-10, 70, 0, 0, 34, "A", "#fff"⟩] ∧
      ¬ InBounds (resize (60 : ℝ) 60) ⟨-10, 70, 0, 0, 34, "A", "#fff"⟩) := by
  have hA : wallPass (resize (1060 : ℝ) 1060) ⟨70, 990, 0, 0, 34, "A", "#fff"⟩
      = ⟨70, 990, 0, 0, 34, "A", "#fff"⟩ := by
    norm_num [wallPass, integrate, wallLeft, wallRight, wallBottom, wallTop, resize, gravity,
      friction, bounce, abs_lt]
  have hh : hypot Real.sqrt ((80 : ℝ) - 70) (990 - 990) = 10 :=
    hypot_of_sq _ _ 10 (by norm_num) (by norm_num)
  have hC : collide Real.sqrt ⟨70, 990, 0, 0, 34, "A", "#fff"⟩ ⟨80, 990, 0, 0, 34, "B", "#fff"⟩
      = (⟨41, 990, 0, 0, 34, "A", "#fff"⟩, ⟨109, 990, 0, 0, 34, "B", "#fff"⟩) := by
    simp only [collide, hh]
    norm_num
  have hB : wallPass (resize (1060 : ℝ) 1060) ⟨109, 990, 0, 0, 34, "B", "#fff"⟩
      = ⟨109, 990, 0, 0, 34, "B", "#fff"⟩ := by
    norm_num [wallPass, integrate, wallLeft, wallRight, wallBottom, wallTop, resize, gravity,
      friction, bounce, abs_lt]
  have hS : wallPass (resize (60 : ℝ) 60) ⟨30, 30, 0, 0, 34, "A", "#fff"⟩
      = ⟨-10, 70, 0, 0, 34, "A", "#fff"⟩ := by
    norm_num [wallPass, integrate, wallLeft, wallRight, wallBottom, wallTop, resize, gravity,
      friction, bounce, abs_lt]
  refine ⟨⟨?_, ?_, ?_, ?_, ?_⟩, ?_, ?_⟩
  · norm_num [Fits, resize]
  · norm_num [InBounds, resize]
  · norm_num [InBounds, resize]
  · rw [step_pair, hA, hC, hB]
  · norm_num [InBounds, resize]
  · rw [step_single, hS]
  · norm_num [InBounds, resize]

/-! ## The two-token scenario -/

/-- C4 fails as stated: token A at (500, 500) and token B at (500, 490), both of radius 34
and at rest, centres 10 apart, far from every wall.  After one tick the centres are
67.325 apart, less than 68, and B has vertical velocity 0.675, not 0. -/
theorem two_token_scenario_fails :
    WellInside (resize (1060 : ℝ) 1060) 500 500 ∧ WellInside (resize (1060 : ℝ) 1060) 500 490 ∧
    hypot Real.sqrt ((500 : ℝ) - 500) (490 - 500) = 10 ∧
    step Real.sqrt (resize (1060 : ℝ) 1060)
        [⟨500, 500, 0, 0, 34, "A", "#fff"⟩, ⟨500, 490, 0, 0, 34, "B", "#fff"⟩]
      = [⟨500, 21169 / 40, 0, 0, 34, "A", "#fff"⟩, ⟨500, 4619 / 10, 0, 27 / 40, 34, "B", "#fff"⟩] ∧
    hypot Real.sqrt ((500 : ℝ) - 500) (4619 / 10 - 21169 / 40) = 2693 / 40 ∧
    (2693 / 40 : ℝ) < 68 ∧ (27 / 40 : ℝ) ≠ 0 / 2 := by
  have hA : wallPass (resize (1060 : ℝ) 1060) ⟨500, 500, 0, 0, 34, "A", "#fff"⟩
      = ⟨500, 10009 / 20, 0, 9 / 20, 34, "A", "#fff"⟩ := by
    norm_num [wallPass, integrate, wallLeft, wallRight, wallBottom, wallTop, resize, gravity,
      friction, bounce, abs_lt]
  have hh : hypot Real.sqrt ((500 : ℝ) - 500) (490 - 10009 / 20) = 209 / 20 :=
    hypot_of_sq _ _ (209 / 20) (by norm_num) (by norm_num)
  have hC : collide Real.sqrt ⟨500, 10009 / 20, 0, 9 / 20, 34, "A", "#fff"⟩ ⟨500, 490, 0, 0, 34, "B", "#fff"⟩
      = (⟨500, 21169 / 40, 0, 0, 34, "A", "#fff"⟩, ⟨500, 18449 / 40, 0, 9 / 40, 34, "B", "#fff"⟩) := by
    simp only [collide, hh]
    norm_num
  have hB : wallPass (resize (1060 : ℝ) 1060) ⟨500, 18449 / 40, 0, 9 / 40, 34, "B", "#fff"⟩
      = ⟨500, 4619 / 10, 0, 27 / 40, 34, "B", "#fff"⟩ := by
    norm_num [wallPass, integrate, wallLeft, wallRight, wallBottom, wallTop, resize, gravity,
      friction, bounce, abs_lt]
  refine ⟨by norm_num [WellInside, resize], by norm_num [WellInside, resize],
    hypot_of_sq _ _ 10 (by norm_num) (by norm_num), ?_,
    hypot_of_sq _ _ (2693 / 40) (by norm_num) (by norm_num), by norm_num, by norm_num⟩
  rw [step_pair, hA, hC, hB]

theorem unit_component (a b : ℝ) (h : a ^ 2 + b ^ 2 = 1) : -1 ≤ a ∧ a ≤ 1 := by
  constructor <;> nlinarith [sq_nonneg b, sq_nonneg (a - 1), sq_nonneg (a + 1)]

theorem scaled_component (a k : ℝ) (ha : -1 ≤ a ∧ a ≤ 1) (hk : 0 < k ∧ k < 34) :
    -34 ≤ a * k ∧ a * k ≤ 34 := by
  obtain ⟨h1, h2⟩ := ha
  obtain ⟨h3, h4⟩ := hk
  constructor <;> nlinarith

theorem ten_component (a b : ℝ) (h : a ^ 2 + b ^ 2 = 10 ^ 2) : -10 ≤ b ∧ b ≤ 10 := by
  constructor <;> nlinarith [sq_nonneg a, sq_nonneg (b - 10), sq_nonneg (b + 10)]

theorem shifted_distance (d e : ℝ) (hd0 : 0 ≤ d) (he : -10 ≤ e ∧ e ≤ 10)
    (hdd : d * d = 100 - 9 / 10 * e + 81 / 400) : 0 < d ∧ d < 34 + 34 := by
  obtain ⟨h1, h2⟩ := he
  constructor
  · rcases eq_or_lt_of_le hd0 with h | h
    · rw [← h] at hdd; linarith
    · exact h
  · nlinarith

theorem end_distance (nx ny : ℝ) (hn : nx ^ 2 + ny ^ 2 = 1) :
    (-1 ≤ ny → (68 - 27 / 40) ^ 2 ≤ (68 * nx) ^ 2 + (68 * ny + 27 / 40) ^ 2) ∧
    (0 ≤ ny → 68 ^ 2 ≤ (68 * nx) ^ 2 + (68 * ny + 27 / 40) ^ 2) := by
  have e : (68 * nx) ^ 2 + (68 * ny + 27 / 40) ^ 2
      = 68 ^ 2 * (nx ^ 2 + ny ^ 2) + 2 * 68 * (27 / 40) * ny + (27 / 40) ^ 2 := by ring
  rw [e, hn]
  constructor <;> intro h <;> linarith

/-- C4 (as amended). Two tokens of radius 34 at rest, centres 10 apart (in any direction),
both well inside the container.  After one tick: the first token has velocity zero (half of
the second token's velocity before the tick); the second token has velocity `(0, 0.675)`,
which is half of the first token's integrated velocity `(0, 0.45)` plus one gravity
increment; the centres are at least 67.3 apart, and at least 68 apart when the second token
is not above the first one's integrated position (`y2 ≥ y1 + 0.45`). -/
theorem two_token_scenario (jar : Bounds ℝ) (x1 y1 x2 y2 : ℝ) (l1 c1 l2 c2 : String)
    (hd : hypot Real.sqrt (x2 - x1) (y2 - y1) = 10)
    (hin1 : WellInside jar x1 y1) (hin2 : WellInside jar x2 y2) :
    ∃ a b, step Real.sqrt jar [⟨x1, y1, 0, 0, 34, l1, c1⟩, ⟨x2, y2, 0, 0, 34, l2, c2⟩] = [a, b] ∧
      a.vx = 0 ∧ a.vy = 0 ∧ b.vx = 0 ∧ b.vy = 27 / 40 ∧
      673 / 10 ≤ hypot Real.sqrt (b.x - a.x) (b.y - a.y) ∧
      (y1 + 9 / 20 ≤ y2 → 68 ≤ hypot Real.sqrt (b.x - a.x) (b.y - a.y)) := by
  obtain ⟨h1a, h1b, h1c, h1d⟩ := hin1
  obtain ⟨h2a, h2b, h2c, h2d⟩ := hin2
  have hd2 : (x2 - x1) ^ 2 + (y2 - y1) ^ 2 = 10 ^ 2 := by
    have h := hypot_mul_self (x2 - x1) (y2 - y1)
    rw [hd] at h
    linear_combination -h
  -- the first token's own pass: gravity only, no wall
  have hI : integrate ⟨x1, y1, 0, 0, 34, l1, c1⟩ = ⟨x1, y1 + 9 / 20, 0, 9 / 20, 34, l1, c1⟩ := by
    norm_num [integrate, gravity, friction]
  have hA : wallPass jar ⟨x1, y1, 0, 0, 34, l1, c1⟩ = ⟨x1, y1 + 9 / 20, 0, 9 / 20, 34, l1, c1⟩ := by
    unfold wallPass
    rw [hI]
    apply walls_untouched
    refine ⟨?_, ?_, ?_, ?_⟩ <;> simp only [] <;> linarith
  -- the distance seen by the pair test
  have hdy : -10 ≤ y2 - y1 ∧ y2 - y1 ≤ 10 := ten_component _ _ hd2
  have hd0 := hypot_nonneg (x2 - x1) (y2 - (y1 + 9 / 20))
  have hex := hypot_mul_self (x2 - x1) (y2 - (y1 + 9 / 20))
  obtain ⟨d, hdef⟩ : ∃ d, d = hypot Real.sqrt (x2 - x1) (y2 - (y1 + 9 / 20)) := ⟨_, rfl⟩
  rw [← hdef] at hex hd0
  have hdd : d * d = 100 - 9 / 10 * (y2 - y1) + 81 / 400 := by
    rw [hex]; linear_combination hd2
  obtain ⟨hpos, hlt⟩ := shifted_distance d (y2 - y1) hd0 hdy hdd
  have hne : d ≠ 0 := ne_of_gt hpos
  have hn : ((x2 - x1) / d) ^ 2 + ((y2 - (y1 + 9 / 20)) / d) ^ 2 = 1 := by
    rw [div_pow, div_pow, ← add_div, div_eq_one_iff_eq (pow_ne_zero 2 hne), sq, sq, sq, hex]
  have hx : x2 - x1 = (x2 - x1) / d * d := (div_mul_cancel₀ _ hne).symm
  have hy : y2 - (y1 + 9 / 20) = (y2 - (y1 + 9 / 20)) / d * d := (div_mul_cancel₀ _ hne).symm
  have hC := collide_of_overlap Real.sqrt ⟨x1, y1 + 9 / 20, 0, 9 / 20, 34, l1, c1⟩
    ⟨x2, y2, 0, 0, 34, l2, c2⟩
    (by simp only []; rw [← hdef]; exact hpos) (by simp only []; rw [← hdef]; exact hlt)
  simp only [] at hC
  rw [← hdef] at hC
  generalize (x2 - x1) / d = nx at hn hx hC
  generalize (y2 - (y1 + 9 / 20)) / d = ny at hn hy hC
  have hnx : -1 ≤ nx ∧ nx ≤ 1 := unit_component nx ny hn
  have hny : -1 ≤ ny ∧ ny ≤ 1 := unit_component ny nx (by rw [add_comm]; exact hn)
  have hk : 0 < (34 + 34 - d) / 2 ∧ (34 + 34 - d) / 2 < 34 := by constructor <;> linarith
  obtain ⟨k, hkdef⟩ : ∃ k, k = (34 + 34 - d) / 2 := ⟨_, rfl⟩
  rw [← hkdef] at hk hC
  have hxk : -34 ≤ nx * k ∧ nx * k ≤ 34 := scaled_component nx k hnx hk
  have hyk : -34 ≤ ny * k ∧ ny * k ≤ 34 := scaled_component ny k hny hk
  -- the second token's own pass: gravity only, no wall
  have hI2 : integrate ⟨x2 + nx * k, y2 + ny * k, 0 * (1 / 2), 9 / 20 * (1 / 2), 34, l2, c2⟩
      = ⟨x2 + nx * k, y2 + ny * k + 27 / 40, 0, 27 / 40, 34, l2, c2⟩ := by
    norm_num [integrate, gravity, friction]
  have hB : wallPass jar ⟨x2 + nx * k, y2 + ny * k, 0 * (1 / 2), 9 / 20 * (1 / 2), 34, l2, c2⟩
      = ⟨x2 + nx * k, y2 + ny * k + 27 / 40, 0, 27 / 40, 34, l2, c2⟩ := by
    unfold wallPass
    rw [hI2]
    apply walls_untouched
    refine ⟨?_, ?_, ?_, ?_⟩ <;> simp only [] <;> linarith [hxk.1, hxk.2, hyk.1, hyk.2]
  have hX : x2 + nx * k - (x1 - nx * k) = 68 * nx := by
    rw [hkdef]; linear_combination hx
  have hY : y2 + ny * k - (y1 + 9 / 20 - ny * k) = 68 * ny := by
    rw [hkdef]; linear_combination hy
  have e : y2 + ny * k + 27 / 40 - (y1 + 9 / 20 - ny * k)
      = y2 + ny * k - (y1 + 9 / 20 - ny * k) + 27 / 40 := by ring
  refine ⟨_, _, by rw [step_pair, hA, hC, hB], ?_, ?_, ?_, ?_, ?_, ?_⟩ <;> simp only []
  · norm_num
  · norm_num
  · rw [e, hX, hY]
    apply le_hypot _ _ _ (by norm_num)
    have h := (end_distance nx ny hn).1 hny.1
    rw [sq, sq, sq] at h
    linarith
  · intro hle
    have hny0 : 0 ≤ ny := by
      by_contra hneg
      have : ny * d < 0 := mul_neg_of_neg_of_pos (not_le.mp hneg) hpos
      linarith
    rw [e, hX, hY]
    apply le_hypot _ _ _ (by norm_num)
    have h := (end_distance nx ny hn).2 hny0
    rw [sq, sq, sq] at h
    linarith

theorem two_token_scenario_witness :
    hypot Real.sqrt ((510 : ℝ) - 500) (500 - 500) = 10 ∧
    WellInside (resize (1060 : ℝ) 1060) 500 500 ∧ WellInside (resize (1060 : ℝ) 1060) 510 500 ∧
    ∃ a b, step Real.sqrt (resize (1060 : ℝ) 1060)
        [⟨500, 500, 0, 0, 34, "A", "#fff"⟩, ⟨510, 500, 0, 0, 34, "B", "#fff"⟩] = [a, b] ∧
      a.vx = 0 ∧ a.vy = 0 ∧ b.vx = 0 ∧ b.vy = 27 / 40 ∧
      673 / 10 ≤ hypot Real.sqrt (b.x - a.x) (b.y - a.y) ∧
      ((500 : ℝ) + 9 / 20 ≤ 500 → 68 ≤ hypot Real.sqrt (b.x - a.x) (b.y - a.y)) := by
  have hh : hypot Real.sqrt ((510 : ℝ) - 500) (500 - 500) = 10 :=
    hypot_of_sq _ _ 10 (by norm_num) (by norm_num)
  exact ⟨hh, by norm_num [WellInside, resize], by norm_num [WellInside, resize],
    two_token_scenario (resize (1060 : ℝ) 1060) 500 500 510 500 "A" "#fff" "B" "#fff" hh
      (by norm_num [WellInside, resize]) (by norm_num [WellInside, resize])⟩

end Jar

namespace Server

/-! ## One name per option -/

theorem mem_setAdd (names : List JSString) (m n : JSString) :
    n ∈ setAdd names m ↔ n ∈ names ∨ n = m := by
  unfold setAdd
  split
  · next h =>
    constructor
    · exact Or.inl
    · rintro (h1 | h1)
      · exact h1
      · rw [h1]; exact h
  · simp

theorem mem_foldl_setAdd (arr acc : List JSString) (n : JSString) :
    n ∈ arr.foldl setAdd acc ↔ n ∈ acc ∨ n ∈ arr := by
  induction arr generalizing acc with
  | nil => simp
  | cons a arr ih =>
    rw [List.foldl_cons, ih, mem_setAdd, List.mem_cons]
    tauto

theorem mem_newSet (arr : List JSString) (n : JSString) : n ∈ newSet arr ↔ n ∈ arr := by
  unfold newSet
  rw [mem_foldl_setAdd]
  simp

/-- Once a `TypeError` has been thrown no further iteration runs. -/
theorem voteOne_thrown (cn : JSString) (acc : Loop) (id : String) (h : acc.thrown = true) :
    voteOne cn acc id = acc := by
  unfold voteOne
  rw [if_pos h]

theorem fold_thrown (cn : JSString) (ids : List String) (acc : Loop) (h : acc.thrown = true) :
    ids.foldl (voteOne cn) acc = acc := by
  induction ids with
  | nil => rfl
  | cons id rest ih => rw [List.foldl_cons, voteOne_thrown cn acc id h, ih]

/-- An iteration for an id that names a member of `Object.prototype` throws and writes
nothing. -/
theorem voteOne_proto (cn : JSString) (acc : Loop) (id : String) (h : acc.thrown = false)
    (hid : id ∈ objectPrototypeKeys) : voteOne cn acc id = { acc with thrown := true } := by
  unfold voteOne
  rw [if_neg (by simp [h]), if_pos hid]

/-- An iteration for another option leaves this option's entries alone. -/
theorem voteOne_other (cn : JSString) (acc : Loop) (id opt : String) (h : opt ≠ id) :
    (voteOne cn acc id).state.history opt = acc.state.history opt ∧
    (voteOne cn acc id).state.stats opt = acc.state.stats opt ∧
    (voteOne cn acc id).state.nameSets opt = acc.state.nameSets opt ∧
    (opt ∈ (voteOne cn acc id).added ↔ opt ∈ acc.added) ∧
    (opt ∈ (voteOne cn acc id).skipped ↔ opt ∈ acc.skipped) := by
  unfold voteOne
  simp only []
  split
  · simp
  · split
    · simp
    · split <;> split <;> split <;> simp [Table.put, h]

/-- An iteration for an ordinary id does not throw. -/
theorem voteOne_not_thrown (cn : JSString) (acc : Loop) (id : String) (h : acc.thrown = false)
    (hid : id ∉ objectPrototypeKeys) : (voteOne cn acc id).thrown = false := by
  unfold voteOne
  simp only []
  rw [if_neg (by simp [h]), if_neg hid]
  split_ifs <;> exact h

/-- An iteration for this option when the name is already recorded. -/
theorem voteOne_skip (cn : JSString) (acc : Loop) (opt : String) (ht : acc.thrown = false)
    (hp : opt ∉ objectPrototypeKeys)
    (hc : acc.state.Consistent opt) (hin : cn ∈ acc.state.names opt) :
    (voteOne cn acc opt).state.history opt = acc.state.history opt ∧
    (voteOne cn acc opt).state.stats opt = acc.state.stats opt ∧
    (voteOne cn acc opt).state.Consistent opt ∧
    (voteOne cn acc opt).added = acc.added ∧
    (voteOne cn acc opt).skipped = acc.skipped ++ [opt] := by
  obtain ⟨s, added, skipped, thrown⟩ := acc
  simp only at ht
  subst ht
  simp only [State.names, State.Consistent] at hc hin ⊢
  cases hh : s.history opt with
  | none => rw [hh] at hin; simp at hin
  | some hist =>
    rw [hh] at hin hc
    simp only [Option.getD_some] at hin hc
    cases hn : s.nameSets opt with
    | none =>
      have hmem : cn ∈ newSet hist := (mem_newSet hist cn).mpr hin
      simp [voteOne, hp, hh, hn, Table.put, hmem, mem_newSet]
    | some ns =>
      have hmem : cn ∈ ns := (hc ns hn cn).mpr hin
      simp only [voteOne, hp, hh, hn, Option.isNone_some, Bool.false_eq_true, if_false,
        Option.getD_some, hmem, if_true, and_true, true_and]
      intro ns' hns' n
      cases hns'
      exact hc ns hn n

/-- An iteration for this option when the name is not recorded yet. -/
theorem voteOne_add (cn : JSString) (acc : Loop) (opt : String) (ht : acc.thrown = false)
    (hp : opt ∉ objectPrototypeKeys)
    (hc : acc.state.Consistent opt) (hnin : cn ∉ acc.state.names opt) :
    (voteOne cn acc opt).state.history opt = some (acc.state.names opt ++ [cn]) ∧
    (voteOne cn acc opt).state.stats opt = some (acc.state.count opt + 1) ∧
    (voteOne cn acc opt).state.Consistent opt ∧
    (voteOne cn acc opt).added = acc.added ++ [opt] ∧
    (voteOne cn acc opt).skipped = acc.skipped := by
  obtain ⟨s, added, skipped, thrown⟩ := acc
  simp only at ht
  subst ht
  simp only [State.names, State.Consistent, State.count] at hc hnin ⊢
  cases hh : s.history opt with
  | none =>
    rw [hh] at hnin hc
    cases hn : s.nameSets opt with
    | none =>
      simp [voteOne, hp, hh, hn, Table.put, newSet, setAdd]
    | some ns =>
      have hmem : cn ∉ ns := fun h => hnin ((hc ns hn cn).mp h)
      have hns : ∀ n, n ∉ ns := fun n h => by simpa using (hc ns hn n).mp h
      simp [voteOne, hp, hh, hn, Table.put, hmem, mem_setAdd, hns]
  | some hist =>
    rw [hh] at hnin hc
    simp only [Option.getD_some] at hnin hc
    cases hn : s.nameSets opt with
    | none =>
      have hmem : cn ∉ newSet hist := fun h => hnin ((mem_newSet hist cn).mp h)
      simp [voteOne, hp, hh, hn, Table.put, hmem, mem_setAdd, mem_newSet]
    | some ns =>
      have hmem : cn ∉ ns := fun h => hnin ((hc ns hn cn).mp h)
      simp [voteOne, hp, hh, hn, Table.put, hmem, mem_setAdd, hc ns hn]

theorem consistent_congr (s s' : State) (opt : String) (hh : s'.history opt = s.history opt)
    (hn : s'.nameSets opt = s.nameSets opt) (hc : s.Consistent opt) : s'.Consistent opt := by
  unfold State.Consistent State.names at *
  rw [hh, hn]
  exact hc

theorem names_congr (s s' : State) (opt : String) (hh : s'.history opt = s.history opt) :
    s'.names opt = s.names opt := by
  unfold State.names
  rw [hh]

theorem count_congr (s s' : State) (opt : String) (hh : s'.stats opt = s.stats opt) :
    s'.count opt = s.count opt := by
  unfold State.count
  rw [hh]

/-- The loop over ordinary ids does not throw. -/
theorem fold_not_thrown (cn : JSString) (ids : List String) (acc : Loop)
    (ht : acc.thrown = false) (hp : ∀ id ∈ ids, id ∉ objectPrototypeKeys) :
    (ids.foldl (voteOne cn) acc).thrown = false := by
  induction ids generalizing acc with
  | nil => exact ht
  | cons id rest ih =>
    rw [List.foldl_cons]
    exact ih _ (voteOne_not_thrown cn acc id ht (hp id (List.mem_cons_self _ _)))
      (fun i hi => hp i (List.mem_cons_of_mem _ hi))

/-- The loop from a state in which the name is already recorded for `opt`. -/
theorem fold_skip (cn : JSString) (opt : String) (ids : List String) (acc : Loop)
    (ht : acc.thrown = false) (hp : ∀ id ∈ ids, id ∉ objectPrototypeKeys)
    (hc : acc.state.Consistent opt) (hin : cn ∈ acc.state.names opt) :
    (ids.foldl (voteOne cn) acc).state.history opt = acc.state.history opt ∧
    (ids.foldl (voteOne cn) acc).state.stats opt = acc.state.stats opt ∧
    (opt ∈ (ids.foldl (voteOne cn) acc).added ↔ opt ∈ acc.added) ∧
    (opt ∈ ids ∨ opt ∈ acc.skipped → opt ∈ (ids.foldl (voteOne cn) acc).skipped) := by
  induction ids generalizing acc with
  | nil => simp
  | cons id rest ih =>
    rw [List.foldl_cons]
    have hpid := hp id (List.mem_cons_self _ _)
    have hprest : ∀ i ∈ rest, i ∉ objectPrototypeKeys :=
      fun i hi => hp i (List.mem_cons_of_mem _ hi)
    have ht' := voteOne_not_thrown cn acc id ht hpid
    by_cases hid : opt = id
    · subst hid
      obtain ⟨h1, h2, h3, h4, h5⟩ := voteOne_skip cn acc opt ht hpid hc hin
      obtain ⟨i1, i2, i3, i4⟩ := ih (voteOne cn acc opt) ht' hprest h3
        (by rw [names_congr _ _ opt h1]; exact hin)
      refine ⟨i1.trans h1, i2.trans h2, ?_, ?_⟩
      · rw [i3, h4]
      · intro _
        exact i4 (Or.inr (by rw [h5]; simp))
    · obtain ⟨h1, h2, h3, h4, h5⟩ := voteOne_other cn acc id opt hid
      obtain ⟨i1, i2, i3, i4⟩ := ih (voteOne cn acc id) ht' hprest
        (consistent_congr _ _ opt h1 h3 hc) (by rw [names_congr _ _ opt h1]; exact hin)
      refine ⟨i1.trans h1, i2.trans h2, i3.trans h4, ?_⟩
      rintro (hm | hm)
      · rcases List.mem_cons.mp hm with hm | hm
        · exact absurd hm hid
        · exact i4 (Or.inl hm)
      · exact i4 (Or.inr (h5.mpr hm))

/-- The loop from a state in which the name is not recorded for `opt`, over ids that
include `opt`. -/
theorem fold_add (cn : JSString) (opt : String) (ids : List String) (acc : Loop)
    (ht : acc.thrown = false) (hp : ∀ id ∈ ids, id ∉ objectPrototypeKeys)
    (hc : acc.state.Consistent opt) (hnin : cn ∉ acc.state.names opt) (hmem : opt ∈ ids) :
    (ids.foldl (voteOne cn) acc).state.history opt = some (acc.state.names opt ++ [cn]) ∧
    (ids.foldl (voteOne cn) acc).state.stats opt = some (acc.state.count opt + 1) ∧
    opt ∈ (ids.foldl (voteOne cn) acc).added := by
  induction ids generalizing acc with
  | nil => simp at hmem
  | cons id rest ih =>
    rw [List.foldl_cons]
    have hpid := hp id (List.mem_cons_self _ _)
    have hprest : ∀ i ∈ rest, i ∉ objectPrototypeKeys :=
      fun i hi => hp i (List.mem_cons_of_mem _ hi)
    have ht' := voteOne_not_thrown cn acc id ht hpid
    by_cases hid : opt = id
    · subst hid
      obtain ⟨h1, h2, h3, h4, h5⟩ := voteOne_add cn acc opt ht hpid hc hnin
      obtain ⟨i1, i2, i3, _⟩ := fold_skip cn opt rest (voteOne cn acc opt) ht' hprest h3
        (by unfold State.names; rw [h1]; simp)
      refine ⟨i1.trans h1, i2.trans h2, ?_⟩
      rw [i3, h4]
      simp
    · obtain ⟨h1, h2, h3, h4, h5⟩ := voteOne_other cn acc id opt hid
      have hrest : opt ∈ rest := by
        rcases List.mem_cons.mp hmem with hm | hm
        · exact absurd hm hid
        · exact hm
      obtain ⟨i1, i2, i3⟩ := ih (voteOne cn acc id) ht' hprest
        (consistent_congr _ _ opt h1 h3 hc) (by rw [names_congr _ _ opt h1]; exact hnin) hrest
      rw [names_congr _ _ opt h1] at i1
      rw [count_congr _ _ opt h2] at i2
      exact ⟨i1, i2, i3⟩

/-- A request without a name, or with the empty name, is answered 400 and changes nothing. -/
theorem vote_missing_name (s : State) (req : Request)
    (h : req.name = none ∨ req.name = some []) :
    vote s req = (.badRequest "缺少姓名或選項", s) := by
  obtain ⟨name, ids⟩ := req
  simp only at h
  rcases h with h | h <;> subst h <;> cases ids <;> simp [vote]

theorem vote_accepted (s : State) (name : JSString) (optionIds : List String) (opt : String)
    (hname : name ≠ []) (hopt : opt ∈ optionIds) (hvalid : ∃ o ∈ s.options, o.id = opt)
    (hproto : ∀ id ∈ optionIds, (∃ o ∈ s.options, o.id = id) → id ∉ objectPrototypeKeys) :
    opt ∈ optionIds.filter (fun id => (s.options.find? (fun o => o.id = id)).isSome) ∧
    (∀ id ∈ optionIds.filter (fun id => (s.options.find? (fun o => o.id = id)).isSome),
      id ∉ objectPrototypeKeys) ∧
    vote s ⟨some name, some optionIds⟩
      = (.ok
          ((optionIds.filter (fun id => (s.options.find? (fun o => o.id = id)).isSome)).foldl
            (voteOne (cleanName name)) ⟨s, [], [], false⟩).added
          ((optionIds.filter (fun id => (s.options.find? (fun o => o.id = id)).isSome)).foldl
            (voteOne (cleanName name)) ⟨s, [], [], false⟩).skipped,
         ((optionIds.filter (fun id => (s.options.find? (fun o => o.id = id)).isSome)).foldl
            (voteOne (cleanName name)) ⟨s, [], [], false⟩).state) := by
  have hv : opt ∈ optionIds.filter (fun id => (s.options.find? (fun o => o.id = id)).isSome) := by
    rw [List.mem_filter]
    refine ⟨hopt, ?_⟩
    obtain ⟨o, ho, hoid⟩ := hvalid
    rw [List.find?_isSome]
    exact ⟨o, ho, by simpa using hoid⟩
  have hp : ∀ id ∈ optionIds.filter (fun id => (s.options.find? (fun o => o.id = id)).isSome),
      id ∉ objectPrototypeKeys := by
    intro id hid
    rw [List.mem_filter, List.find?_isSome] at hid
    obtain ⟨hin, o, ho, hoid⟩ := hid
    exact hproto id hin ⟨o, ho, by simpa using hoid⟩
  refine ⟨hv, hp, ?_⟩
  have hids : optionIds ≠ [] := List.ne_nil_of_mem hopt
  have hvne := List.ne_nil_of_mem hv
  have hnt := fold_not_thrown (cleanName name) _ ⟨s, [], [], false⟩ rfl hp
  unfold vote
  simp only []
  rw [if_neg (by simp [hname, hids]), if_neg hvne, hnt]
  simp

/-- C6 (as amended). A request whose name is missing or empty is answered 400 and changes
nothing.  For a state in which `nameSets[opt]`, when defined, holds exactly the names of
`history[opt]` and `history[opt]` has no duplicates, and a request with a non-empty name
whose valid option ids are not names of members of `Object.prototype` and include `opt`, the
handler answers `{ ok, added, skipped }` and, with `cleanName` the name trimmed and cut to 16
code units: if `cleanName` is already in `history[opt]`, then `history[opt]` and `stats[opt]`
are unchanged, `opt` is in `skipped` and not in `added`; otherwise `cleanName` is appended to
`history[opt]`, `stats[opt]` increases by exactly 1 and `opt` is in `added`.  In both cases
`history[opt]` stays free of duplicates, also when `optionIds` repeats an id. -/
theorem vote_once :
    (∀ (s : State) (req : Request), req.name = none ∨ req.name = some [] →
      vote s req = (.badRequest "缺少姓名或選項", s)) ∧
    (∀ (s : State) (name : JSString) (optionIds : List String) (opt : String),
      name ≠ [] → opt ∈ optionIds → (∃ o ∈ s.options, o.id = opt) →
      (∀ id ∈ optionIds, (∃ o ∈ s.options, o.id = id) → id ∉ objectPrototypeKeys) →
      s.Consistent opt → (s.names opt).Nodup →
      ∃ added skipped, (vote s ⟨some name, some optionIds⟩).1 = .ok added skipped ∧
        (cleanName name ∈ s.names opt →
          (vote s ⟨some name, some optionIds⟩).2.history opt = s.history opt ∧
          (vote s ⟨some name, some optionIds⟩).2.stats opt = s.stats opt ∧
          opt ∈ skipped ∧ opt ∉ added) ∧
        (cleanName name ∉ s.names opt →
          (vote s ⟨some name, some optionIds⟩).2.names opt = s.names opt ++ [cleanName name] ∧
          (vote s ⟨some name, some optionIds⟩).2.count opt = s.count opt + 1 ∧
          opt ∈ added) ∧
        ((vote s ⟨some name, some optionIds⟩).2.names opt).Nodup) := by
  refine ⟨vote_missing_name, ?_⟩
  intro s name optionIds opt hname hopt hvalid hproto hcons hnodup
  obtain ⟨hv, hp, hvote⟩ := vote_accepted s name optionIds opt hname hopt hvalid hproto
  have hs := fun hin => fold_skip (cleanName name) opt
    (optionIds.filter (fun id => (s.options.find? (fun o => o.id = id)).isSome))
    ⟨s, [], [], false⟩ rfl hp hcons hin
  have ha := fun hnin => fold_add (cleanName name) opt
    (optionIds.filter (fun id => (s.options.find? (fun o => o.id = id)).isSome))
    ⟨s, [], [], false⟩ rfl hp hcons hnin hv
  simp only [] at hs ha
  generalize (optionIds.filter (fun id => (s.options.find? (fun o => o.id = id)).isSome)).foldl
    (voteOne (cleanName name)) ⟨s, [], [], false⟩ = r at hvote hs ha
  rw [hvote]
  simp only []
  by_cases hin : cleanName name ∈ s.names opt
  · obtain ⟨h1, h2, h3, h4⟩ := hs hin
    refine ⟨_, _, rfl, fun _ => ⟨h1, h2, h4 (Or.inl hv), fun h => by simpa using h3.mp h⟩,
      fun hnin => absurd hin hnin, ?_⟩
    rw [names_congr _ _ opt h1]
    exact hnodup
  · obtain ⟨h1, h2, h3⟩ := ha hin
    have hnames : r.state.names opt = s.names opt ++ [cleanName name] := by
      unfold State.names at h1 ⊢; rw [h1]; rfl
    have hcount : r.state.count opt = s.count opt + 1 := by
      unfold State.count at h2 ⊢; rw [h2]; rfl
    refine ⟨_, _, rfl, fun h => absurd h hin, fun _ => ⟨hnames, hcount, h3⟩, ?_⟩
    rw [hnames]
    exact List.Nodup.append hnodup (List.nodup_singleton _) (by simpa using hin)

theorem emptyState_consistent (opt : String) : emptyState.Consistent opt := by
  intro ns h
  simp [emptyState] at h

theorem protoState_consistent (opt : String) : protoState.Consistent opt := by
  intro ns h
  simp [protoState] at h

theorem vote_once_witness :
    ([65, 108] : JSString) ≠ [] ∧ "d1010" ∈ ["d1010", "d1010"] ∧
    emptyState.Consistent "d1010" ∧ (emptyState.names "d1010").Nodup ∧
    ((vote emptyState ⟨some [65, 108], some ["d1010", "d1010"]⟩).2.names "d1010").Nodup ∧
    vote emptyState ⟨some [], some ["d1010"]⟩ = (.badRequest "缺少姓名或選項", emptyState) := by
  obtain ⟨_, _, _, _, _, h⟩ := vote_once.2 emptyState [65, 108] ["d1010", "d1010"] "d1010"
    (by decide) (by simp) ⟨⟨"d1010", "10/10"⟩, by simp [emptyState], rfl⟩
    (by
      intro id hid _
      have : id = "d1010" := by simpa using hid
      subst this
      decide)
    (emptyState_consistent _) (by simp [State.names, emptyState])
  exact ⟨by decide, by simp, emptyState_consistent _, by simp [State.names, emptyState], h,
    vote_once.1 emptyState ⟨some [], some ["d1010"]⟩ (Or.inr rfl)⟩

/-- C6 fails as stated.  First input: a request whose name is the empty string, for a valid
option on which nothing is recorded yet; the trimmed name is not in `history[opt]`, yet the
handler answers 400, reports no `added` and leaves `history[opt]` and `stats[opt]` as they
were.  Second input: options `constructor` and `d1010` are configured and a request names
both; the loop throws on `constructor`, the answer is status 500, and for `d1010` nothing is
appended and nothing is counted. -/
theorem vote_empty_name_rejected :
    ((∃ o ∈ emptyState.options, o.id = "d1010") ∧
      emptyState.Consistent "d1010" ∧ (emptyState.names "d1010").Nodup ∧
      cleanName [] ∉ emptyState.names "d1010" ∧
      (vote emptyState ⟨some [], some ["d1010"]⟩).1 = .badRequest "缺少姓名或選項" ∧
      (vote emptyState ⟨some [], some ["d1010"]⟩).2.names "d1010" = [] ∧
      (vote emptyState ⟨some [], some ["d1010"]⟩).2.count "d1010" = 0) ∧
    ((∃ o ∈ protoState.options, o.id = "d1010") ∧
      protoState.Consistent "d1010" ∧ (protoState.names "d1010").Nodup ∧
      cleanName [65, 108] ∉ protoState.names "d1010" ∧
      (vote protoState ⟨some [65, 108], some ["constructor", "d1010"]⟩).1 = .serverError ∧
      (vote protoState ⟨some [65, 108], some ["constructor", "d1010"]⟩).2.names "d1010" = [] ∧
      (vote protoState ⟨some [65, 108], some ["constructor", "d1010"]⟩).2.count "d1010" = 0) := by
  refine ⟨⟨⟨⟨"d1010", "10/10"⟩, by simp [emptyState], rfl⟩, emptyState_consistent _,
    by simp [State.names, emptyState], by simp [State.names, emptyState], ?_, ?_, ?_⟩,
    ⟨⟨"d1010", "10/10"⟩, by simp [protoState], rfl⟩, protoState_consistent _,
    by simp [State.names, protoState], by simp [State.names, protoState], ?_, ?_, ?_⟩
  · simp [vote]
  · simp [vote, State.names, emptyState]
  · simp [vote, State.count, emptyState]
  · simp [vote, protoState, voteOne, objectPrototypeKeys]
  · simp [vote, protoState, voteOne, objectPrototypeKeys, State.names]
  · simp [vote, protoState, voteOne, objectPrototypeKeys, State.count]

end Server
